import Mathlib

/-!
# Verification of the PBTC peer-population and message-ingest core

A shallow embedding, in Lean 4, of the core data structures and operations of
the passive Bitcoin crawler PBTC, together with theorems settling a list of
claims about its behaviour.

The embedding follows the Go sources:
* `repository` (node index, node-queue handler, save/restore, `Get`) from
  `all/util.go`;
* `Manager.processNewPeer` from the manager module;
* `AddressRecord` / `VerAckRecord` text and binary forms from the records
  modules;
* `FileWriter` (rotation checks and `Stop`) from `writer/writer_file.go`;
* the `MinUint32` helper from `all/util.go`.

Go maps keyed by `addr.String()` are embedded as association lists keyed by
`String`; machine integers are embedded as `Nat`/`Int` (no arithmetic in the
embedded fragment can overflow); side effects on the file system and on peers
are embedded as explicit traces of operations.
-/

set_option maxHeartbeats 1000000

namespace PBTC

/-! ## Node data model (`all/util.go`, type `node`)

A node stores the remote address, the source address that reported it, the
attempt counter and three timestamps.  Addresses are embedded as their
canonical `host:port` strings (the Go code keys everything by
`addr.String()`); timestamps are embedded as `Nat` clock values. -/

structure Node where
  addr : String
  src : String
  attempts : Nat
  lastAttempt : Nat
  lastSuccess : Nat
  lastConnect : Nat
deriving DecidableEq, Repr

/-- The repository's node index, `map[string]*node` in Go, embedded as an
association list from the canonical address string to the node.  Inserts
prepend; lookups take the first hit, as the Go map semantics guarantee at
most one entry per key. -/
abbrev NodeIndex := List (String × Node)

/-- Key lookup in the node index (`repo.nodeIndex[key]` with its `ok` flag). -/
def NodeIndex.containsKey (idx : NodeIndex) (key : String) : Bool :=
  (List.lookup key idx).isSome

/-- Number of entries in the index (`len(repo.nodeIndex)`). -/
def NodeIndex.size (idx : NodeIndex) : Nat := List.length idx

/-! ## `MinUint32` (`all/util.go` lines 78-84)

```go
func MinUint32(x uint32, y uint32) uint32 {
    if x > y {
        return x
    }
    return y
}
```
uint32 values are embedded as natural numbers below `2^32`; the function body
performs no arithmetic, so the comparison is the same as on `Nat`. -/

def MinUint32 (x y : Nat) : Nat :=
  if x > y then x else y

/-! ## `repository.Get` (`all/util.go` lines 354-373)

`Get` returns an error when the index is empty; otherwise it draws
`rand.Int() % len(index)` and walks the map until the counter reaches that
position, returning that node's address.  The random draw is embedded as an
explicit `Nat` argument; the map iteration order is the list order of the
embedded index.  The final `return nil, errors.New("No qualified node found")`
after the loop is kept verbatim (it is reachable in the embedding only if the
position lookup fails). -/

def repositoryGet (r : Nat) (idx : NodeIndex) : Except String String :=
  if NodeIndex.size idx = 0 then
    Except.error "No nodes in repository"
  else
    match List.get? idx (r % NodeIndex.size idx) with
    | some entry => Except.ok entry.2.addr
    | none => Except.error "No qualified node found"

/-! ## `repository.handleNodes` (`all/util.go` lines 502-531)

The node-queue handler dequeues nodes one at a time.  For each dequeued node:
if the address is already in the index the handler executes `return` (not
`continue`), ending the handler; likewise if `len(repo.nodeIndex) >=
maxNodeCount`; otherwise the node is inserted and the loop continues.  The
handler is embedded as a function over the list of nodes delivered on the
queue, with the node limit as a parameter. -/

def handleNodes (limit : Nat) (idx : NodeIndex) (queue : List Node) : NodeIndex :=
  match queue with
  | [] => idx
  | n :: rest =>
    if NodeIndex.containsKey idx n.addr then idx
    else if limit ≤ NodeIndex.size idx then idx
    else handleNodes limit ((n.addr, n) :: idx) rest

/-- The effect of the handler processing a single dequeued node: skip a known
address, skip when the index is at the limit, insert otherwise.  (This is the
per-node body of `handleNodes`; the early `return` only matters for which
nodes get processed, not for the effect of one step.) -/
def handleNode (limit : Nat) (idx : NodeIndex) (n : Node) : NodeIndex :=
  if NodeIndex.containsKey idx n.addr then idx
  else if limit ≤ NodeIndex.size idx then idx
  else (n.addr, n) :: idx

/-! ## Value-updating repository operations (`all/util.go` lines 292-347)

`Update` on a known address refreshes `src`; `Attempt`, `Connected` and
`Good` update counters and timestamps of a known address and are no-ops on
unknown addresses.  None of them changes the set of keys.  They are embedded
through a common helper that rewrites the entry at a key, if present.  The
current time is passed explicitly as a `Nat` clock value. -/

def NodeIndex.adjust (idx : NodeIndex) (key : String) (f : Node → Node) : NodeIndex :=
  idx.map fun entry => if entry.1 = key then (entry.1, f entry.2) else entry

/-- `Update` on an address already in the index: `n.src = src`.  (On an
unknown address `Update` only enqueues a fresh node on `nodeQ`; the insertion
itself is performed by `handleNodes`.) -/
def repositoryUpdateKnown (idx : NodeIndex) (addr src : String) : NodeIndex :=
  NodeIndex.adjust idx addr fun n => { n with src := src }

/-- `Attempt`: increment `attempts`, stamp `lastAttempt`. -/
def repositoryAttempt (idx : NodeIndex) (addr : String) (now : Nat) : NodeIndex :=
  NodeIndex.adjust idx addr fun n =>
    { n with attempts := n.attempts + 1, lastAttempt := now }

/-- `Connected`: stamp `lastConnect`. -/
def repositoryConnected (idx : NodeIndex) (addr : String) (now : Nat) : NodeIndex :=
  NodeIndex.adjust idx addr fun n => { n with lastConnect := now }

/-- `Good`: reset `attempts`, stamp `lastSuccess`. -/
def repositoryGood (idx : NodeIndex) (addr : String) (now : Nat) : NodeIndex :=
  NodeIndex.adjust idx addr fun n =>
    { n with attempts := 0, lastSuccess := now }

/-! ## Persistence: `repository.save` / `repository.restore`
(`all/util.go` lines 376-415)

```go
func (repo *repository) save() {
    file, err := os.Create("nodes.dat")   // truncates the live file
    ...
    enc := gob.NewEncoder(file)
    err = enc.Encode(repo.nodeIndex)      // writes into the live file
    ...
}
```
`restore` opens `nodes.dat` and decodes the entire index from it (it is
called once, at `Start`, on the fresh empty index); a missing or unreadable
file is logged and ignored.

The file system is embedded as the content of the single file `nodes.dat`
plus any temporary files, and `save` is embedded as the exact trace of file
operations it performs.  File contents are node indexes ("gob encoding" is
kept abstract: the content *is* the encoded index). -/

/-- A file-system operation performed by `save`. -/
inductive FsOp where
  /-- `os.Create(name)`: create the file, truncating it to empty content. -/
  | create (name : String)
  /-- Write an encoded node index into the named (open) file. -/
  | writeData (name : String) (content : NodeIndex)
  /-- Rename `src` over `dst`, atomically replacing it. -/
  | rename (src dst : String)
  /-- Close the named file. -/
  | close (name : String)
deriving DecidableEq

/-- Name of the live node file. -/
def liveNodeFile : String := "nodes.dat"

/-- The trace of file operations performed by `repository.save`:
create (truncate) `nodes.dat`, gob-encode the index into it, close it
(the `defer file.Close()`).  There is no temporary file and no rename. -/
def saveOps (idx : NodeIndex) : List FsOp :=
  [FsOp.create liveNodeFile, FsOp.writeData liveNodeFile idx, FsOp.close liveNodeFile]

/-- File-system state: the contents of named files.  `none` means the file
does not exist; `some c` is a file whose decodable content is `c` (a freshly
created, partially written file has content `[]`). -/
abbrev FsState := List (String × NodeIndex)

def FsState.read (fs : FsState) (name : String) : Option NodeIndex :=
  List.lookup name fs

def FsState.write (fs : FsState) (name : String) (c : NodeIndex) : FsState :=
  (name, c) :: (fs.filter fun e => decide (e.1 ≠ name))

/-- Apply one file operation to the file-system state. -/
def FsOp.apply (fs : FsState) : FsOp → FsState
  | FsOp.create name => FsState.write fs name []
  | FsOp.writeData name c => FsState.write fs name c
  | FsOp.rename src dst =>
    match FsState.read fs src with
    | some c => FsState.write (fs.filter fun e => decide (e.1 ≠ src)) dst c
    | none => fs
  | FsOp.close _ => fs

/-- Apply a trace of file operations in order. -/
def applyOps (fs : FsState) (ops : List FsOp) : FsState :=
  ops.foldl FsOp.apply fs

/-- The write-temp-then-rename pattern the specification ascribes to `save`:
some temporary file distinct from the live file is created, the index is
written into it, and it is renamed over the live file. -/
def writeTempThenRename (ops : List FsOp) (idx : NodeIndex) : Prop :=
  ∃ tmp, tmp ≠ liveNodeFile ∧
    FsOp.create tmp ∈ ops ∧
    FsOp.writeData tmp idx ∈ ops ∧
    FsOp.rename tmp liveNodeFile ∈ ops

/-- Crash-atomicity of a trace with respect to the live file: after any
prefix of the trace (a crash can stop it anywhere), the live file decodes
either to its old content or to the complete new index — a restore never
observes a partially written file. -/
def crashAtomic (ops : List FsOp) (fs : FsState) (oldC : Option NodeIndex)
    (idx : NodeIndex) : Prop :=
  ∀ k, FsState.read (applyOps fs (ops.take k)) liveNodeFile = oldC ∨
    FsState.read (applyOps fs (ops.take k)) liveNodeFile = some idx

/-- `repository.restore`: decode the node index from the live file,
replacing the in-memory index (it is called on the fresh empty index at
`Start`); a missing file leaves the index unchanged. -/
def repositoryRestore (fs : FsState) (idx : NodeIndex) : NodeIndex :=
  match FsState.read fs liveNodeFile with
  | some c => c
  | none => idx

/-! ## The repository as a transition system (for the `NodeLimit` invariant)

A repository state is the in-memory node index together with the persisted
file content.  The steps are the operations of the repository that touch the
index or the file: processing one node from the queue, a save tick, a
restore, and the value-updating operations. -/

structure RepoState where
  index : NodeIndex
  file : Option NodeIndex

/-- One step of the repository, parametrised by the node limit
(`maxNodeCount` / `NodeLimit`). -/
inductive RepoStep (limit : Nat) : RepoState → RepoState → Prop where
  /-- `handleNodes` processes one node from `nodeQ`. -/
  | node (s : RepoState) (n : Node) :
      RepoStep limit s ⟨handleNode limit s.index n, s.file⟩
  /-- `save` (periodic tick or `Stop`): the index is encoded to the file. -/
  | save (s : RepoState) :
      RepoStep limit s ⟨s.index, some s.index⟩
  /-- `restore` (at `Start`): the file content replaces the index. -/
  | restoreStep (s : RepoState) (m : NodeIndex) (h : s.file = some m) :
      RepoStep limit s ⟨m, s.file⟩
  /-- `Update` on a known address. -/
  | update (s : RepoState) (addr src : String) :
      RepoStep limit s ⟨repositoryUpdateKnown s.index addr src, s.file⟩
  /-- `Attempt`. -/
  | attemptStep (s : RepoState) (addr : String) (now : Nat) :
      RepoStep limit s ⟨repositoryAttempt s.index addr now, s.file⟩
  /-- `Connected`. -/
  | connected (s : RepoState) (addr : String) (now : Nat) :
      RepoStep limit s ⟨repositoryConnected s.index addr now, s.file⟩
  /-- `Good`. -/
  | good (s : RepoState) (addr : String) (now : Nat) :
      RepoStep limit s ⟨repositoryGood s.index addr now, s.file⟩

/-- The initial repository state: empty index, no node file yet. -/
def repoInit : RepoState := ⟨[], none⟩

/-- Reachability from the initial state by repository steps. -/
def RepoReachable (limit : Nat) (s : RepoState) : Prop :=
  Relation.ReflTransGen (RepoStep limit) repoInit s

/-! ## Record text forms (`recorder/record_address.go`, records `verack`)

A record carries a timestamp, the command string, and the remote and local
endpoints.  The text form concatenates already-formatted fields, so the
fields are embedded as the strings the Go code obtains from
`stamp.Format(time.RFC3339Nano)`, `msg.Command()`, `ra.String()` and
`la.String()`.  `++` below associates to the left, matching the successive
`buf.WriteString` calls. -/

/-- Modelled from the spec: the records package constant `Delimiter1` is not
among the provided sources; per the specification the field delimiter within
a record is a single ASCII space. -/
def Delimiter1 : String := " "

/-- The fields shared by all records (embedded `Record` base struct), plus
the already-formatted entry lines of an `addr` record. -/
structure AddressRecord where
  stampStr : String
  cmd : String
  raStr : String
  laStr : String
  addrs : List String

/-- `AddressRecord.String()`: header line `cmd stamp ra la count`, then one
line per address entry, each beginning with a single space. -/
def AddressRecord.toText (ar : AddressRecord) : String :=
  ar.cmd ++ " " ++ ar.stampStr ++ " " ++ ar.raStr ++ " " ++ ar.laStr ++ " " ++
    toString ar.addrs.length ++
    ar.addrs.foldl (fun acc a => acc ++ "\n" ++ " " ++ a) ""

/-- The fields of a `verack` record (embedded `VerAckRecord`). -/
structure VerAckRecord where
  stampStr : String
  cmd : String
  raStr : String
  laStr : String

/-- `VerAckRecord.String()`: the Go code writes the timestamp first, then
the command, then the endpoints, separated by `Delimiter1`. -/
def VerAckRecord.toText (vr : VerAckRecord) : String :=
  vr.stampStr ++ Delimiter1 ++ vr.cmd ++ Delimiter1 ++ vr.raStr ++ Delimiter1 ++
    vr.laStr

/-! ## Binary `addr` record (`recorder/record_address.go`, `Bytes`)

Bytes are embedded as natural numbers below 256; multi-byte integers are
laid out little-endian by `leBytes`.  IPs are byte lists; `To16` maps a
4-byte IPv4 address to its v6-mapped 16-byte form, keeps 16-byte addresses,
and yields `nil` (zero bytes written) otherwise, as `net.IP.To16` does. -/

/-- Little-endian layout of `v` in `w` bytes. -/
def leBytes (w v : Nat) : List Nat :=
  (List.range w).map fun i => v / 256 ^ i % 256

/-- `net.IP.To16`. -/
def ipTo16 (ip : List Nat) : List Nat :=
  if ip.length = 16 then ip
  else if ip.length = 4 then [0, 0, 0, 0, 0, 0, 0, 0, 0, 0, 0xff, 0xff] ++ ip
  else []

/-- A TCP endpoint: IP bytes and port. -/
structure TCPAddrBin where
  ip : List Nat
  port : Nat

/-- Modelled from the spec: `ParseCommand` (records package, not among the
provided sources) maps a command string to a one-byte command code. -/
def ParseCommand (cmd : String) : Nat :=
  if cmd = "version" then 1
  else if cmd = "verack" then 2
  else if cmd = "addr" then 3
  else if cmd = "inv" then 4
  else if cmd = "tx" then 5
  else if cmd = "ping" then 6
  else 0

/-- Modelled from the spec: one `addr` entry (`EntryRecord`, not among the
provided sources) carries timestamp, service flags, IP and port per the
Bitcoin `addr` entry layout: 4-byte timestamp, 8-byte services, 16-byte
v6-mapped IP, 2-byte port — 30 bytes. -/
structure EntryRecord where
  stamp : Nat
  services : Nat
  ip : List Nat
  port : Nat

/-- Modelled from the spec: `EntryRecord.Bytes()`, the 30-byte entry form. -/
def EntryRecord.bytes (e : EntryRecord) : List Nat :=
  leBytes 4 e.stamp ++ leBytes 8 e.services ++ ipTo16 e.ip ++ leBytes 2 e.port

/-- The fields of an `addr` record used by its binary form. -/
structure AddressRecordBin where
  stampNano : Nat
  ra : TCPAddrBin
  la : TCPAddrBin
  cmd : String
  addrs : List EntryRecord

/-- `AddressRecord.Bytes()`: 8-byte nanosecond timestamp, 16-byte v6-mapped
remote IP, 2-byte remote port, 16-byte v6-mapped local IP, 2-byte local
port, 1-byte command code, 2-byte entry count, then the 30-byte entries. -/
def AddressRecordBin.bytes (ar : AddressRecordBin) : List Nat :=
  leBytes 8 ar.stampNano ++
    ipTo16 ar.ra.ip ++ leBytes 2 ar.ra.port ++
    ipTo16 ar.la.ip ++ leBytes 2 ar.la.port ++
    leBytes 1 (ParseCommand ar.cmd) ++
    leBytes 2 ar.addrs.length ++
    (ar.addrs.map EntryRecord.bytes).flatten

/-! ## `Manager.processNewPeer` (manager module)

```go
func (mgr *Manager) processNewPeer(peer *peer) {
    _, ok := mgr.peerIndex[peer.String()]
    if ok { ...; return }
    if len(mgr.peerIndex) >= maxPeerCount { ...; return }
    peer.Start()
    mgr.peerIndex[peer.String()] = peer
}
```
A peer is embedded by its canonical remote-address key (`peer.String()`);
the calls the manager makes into the peer are recorded as an explicit action
trace, so that "the peer is stopped" is observable. -/

structure ManagedPeer where
  key : String
deriving DecidableEq

/-- An action the manager performs on a peer. -/
inductive PeerAction where
  | startPeer (key : String)
  | stopPeer (key : String)
deriving DecidableEq

/-- `processNewPeer`, parametrised by `maxPeerCount` (`PeerLimit`): returns
the new peer index and the trace of actions performed on the peer. -/
def processNewPeer (limit : Nat) (peerIndex : List (String × ManagedPeer))
    (p : ManagedPeer) : List (String × ManagedPeer) × List PeerAction :=
  if (List.lookup p.key peerIndex).isSome then (peerIndex, [])
  else if limit ≤ peerIndex.length then (peerIndex, [])
  else ((p.key, p) :: peerIndex, [PeerAction.startPeer p.key])

/-! ## `FileWriter` (`writer/writer_file.go`)

The rotation state of the file writer: the configured limits (`fileAge`,
`fileSize`, Go `time.Duration` and `int64`, embedded as `Int`), the current
file's size, and counters observing the effects of `rotateLog` and the timer
reset. -/

/-- The log version header (`const Version`). -/
def Version : String := "PBTC Log Version 1"

structure FileWriterState where
  fileAge : Int
  fileSize : Int
  curSize : Int
  rotations : Nat
  timerResets : Nat
deriving DecidableEq

/-- `rotateLog`: a new file is created holding only the version header line
`#PBTC Log Version 1\n`; the old file is handed to the compressor and
closed.  Observable here: one more rotation, and the current size is the
header's size. -/
def rotateLog (w : FileWriterState) : FileWriterState :=
  { w with
    rotations := w.rotations + 1
    curSize := Int.ofNat ("#" ++ Version ++ "\n").length }

/-- `checkTime`: on a timer fire, do nothing when `fileAge == 0`; otherwise
rotate and reset the timer. -/
def checkTime (w : FileWriterState) : FileWriterState :=
  if w.fileAge = 0 then w
  else
    let w' := rotateLog w
    { w' with timerResets := w'.timerResets + 1 }

/-- `checkSize`: after a write, do nothing when `fileSize == 0`; otherwise
rotate exactly when the current size has reached `fileSize`. -/
def checkSize (w : FileWriterState) : FileWriterState :=
  if w.fileSize = 0 then w
  else if w.curSize < w.fileSize then w
  else rotateLog w

/-! ### `FileWriter.Stop` (`writer/writer_file.go` lines 109-117)

```go
func (w *FileWriter) Stop() {
    if atomic.SwapUint32(&w.done, 1) == 1 { return }
    close(w.sigWriter)
    w.wg.Wait()
}
```
The shutdown-relevant state is the `done` flag and whether `sigWriter` has
been closed; the close and the wait are also recorded as an effect trace. -/

structure FileWriterCtl where
  done : Bool
  sigWriterClosed : Bool
deriving DecidableEq

/-- An effect of a `Stop` call. -/
inductive StopEffect where
  | closeSigWriter
  | waitGroup
deriving DecidableEq

/-- `FileWriter.Stop`: swap the done flag; if it was already set, return
immediately with no effect; otherwise close `sigWriter` and wait for the
writer goroutine. -/
def FileWriterStop (w : FileWriterCtl) : FileWriterCtl × List StopEffect :=
  if w.done then (w, [])
  else ({ w with done := true, sigWriterClosed := true },
    [StopEffect.closeSigWriter, StopEffect.waitGroup])

/-! ## Theorems -/

/-- C7: for every pair of uint32 values `x` and `y`, `MinUint32 x y` returns
the larger of the two values, despite its name and its use in version
negotiation. -/
theorem MinUint32_returns_larger (x y : Nat) (_hx : x < 2 ^ 32) (_hy : y < 2 ^ 32) :
    MinUint32 x y = max x y := by
  unfold MinUint32
  split <;> omega

theorem MinUint32_returns_larger_witness :
    MinUint32 3 70000 = max 3 70000 :=
  MinUint32_returns_larger 3 70000 (by norm_num) (by norm_num)

/-- C5: `repository.Get` fails with the `NotFound` error ("No nodes in
repository") exactly when the node index is empty, and on every non-empty
index it returns the address of some node stored in the index (for every
value of the random draw). -/
theorem repositoryGet_spec (r : Nat) (idx : NodeIndex) :
    (repositoryGet r idx = Except.error "No nodes in repository" ↔ idx = []) ∧
    (idx ≠ [] →
      ∃ entry ∈ idx, repositoryGet r idx = Except.ok entry.2.addr) := by
  by_cases h : idx = []
  · subst h
    simp [repositoryGet, NodeIndex.size]
  · have hlen : 0 < idx.length := List.length_pos.mpr h
    have hmod : r % idx.length < idx.length := Nat.mod_lt r hlen
    have hget : List.get? idx (r % idx.length) =
        some (idx.get ⟨r % idx.length, hmod⟩) := List.get?_eq_get hmod
    constructor
    · constructor
      · intro habs
        rw [repositoryGet] at habs
        rw [if_neg (by simp only [NodeIndex.size]; omega)] at habs
        rw [NodeIndex.size] at habs
        rw [hget] at habs
        cases habs
      · intro h'
        exact absurd h' h
    · intro _
      refine ⟨idx.get ⟨r % idx.length, hmod⟩, List.get_mem idx _ hmod, ?_⟩
      rw [repositoryGet]
      rw [if_neg (by simp only [NodeIndex.size]; omega)]
      rw [NodeIndex.size, hget]

theorem repositoryGet_spec_witness :
    ∃ entry ∈ ([(("1.2.3.4:8333" : String),
        (⟨"1.2.3.4:8333", "0.0.0.0:0", 0, 0, 0, 0⟩ : Node))] : NodeIndex),
      repositoryGet 5 [("1.2.3.4:8333", ⟨"1.2.3.4:8333", "0.0.0.0:0", 0, 0, 0, 0⟩)] =
        Except.ok entry.2.addr :=
  (repositoryGet_spec 5 [("1.2.3.4:8333", ⟨"1.2.3.4:8333", "0.0.0.0:0", 0, 0, 0, 0⟩)]).2
    (by decide)

/-- C9: as soon as the node handler dequeues a node whose address is already
in the index, or dequeues any node while the index is at the node limit, the
handler function returns the index unchanged; no node dequeued after that
point is ever added to the index (the result does not depend on the rest of
the queue). -/
theorem handleNodes_early_return (limit : Nat) (idx : NodeIndex) (n : Node)
    (rest : List Node)
    (h : NodeIndex.containsKey idx n.addr = true ∨ limit ≤ NodeIndex.size idx) :
    handleNodes limit idx (n :: rest) = idx := by
  unfold handleNodes
  rcases h with h | h
  · simp [h]
  · by_cases hc : NodeIndex.containsKey idx n.addr <;> simp [hc, h]

theorem handleNodes_early_return_witness :
    handleNodes 1 [(("a:1" : String), (⟨"a:1", "s", 0, 0, 0, 0⟩ : Node))]
      [⟨"b:2", "s", 0, 0, 0, 0⟩, ⟨"c:3", "s", 0, 0, 0, 0⟩] =
      [("a:1", ⟨"a:1", "s", 0, 0, 0, 0⟩)] :=
  handleNodes_early_return 1 [("a:1", ⟨"a:1", "s", 0, 0, 0, 0⟩)]
    ⟨"b:2", "s", 0, 0, 0, 0⟩ [⟨"c:3", "s", 0, 0, 0, 0⟩] (Or.inr (by decide))

/-- C8: in the file writer, a zero limit disables the corresponding rotation
trigger: if the age limit is zero the timer-driven `checkTime` leaves the
writer unchanged, and if the size limit is zero the post-write `checkSize`
leaves the writer unchanged, for every writer state. -/
theorem zero_limits_disable_rotation (w : FileWriterState) :
    (w.fileAge = 0 → checkTime w = w) ∧ (w.fileSize = 0 → checkSize w = w) := by
  constructor
  · intro h
    simp [checkTime, h]
  · intro h
    simp [checkSize, h]

theorem zero_limits_disable_rotation_witness :
    checkTime ⟨0, 0, 500, 3, 3⟩ = ⟨0, 0, 500, 3, 3⟩ ∧
    checkSize ⟨0, 0, 500, 3, 3⟩ = ⟨0, 0, 500, 3, 3⟩ :=
  ⟨(zero_limits_disable_rotation ⟨0, 0, 500, 3, 3⟩).1 rfl,
   (zero_limits_disable_rotation ⟨0, 0, 500, 3, 3⟩).2 rfl⟩

/-- C10: `FileWriter.Stop` is idempotent — a call always leaves the done
flag set; a first call (done flag clear) closes the shutdown channel and
waits for the writer goroutine; a repeated call returns immediately with no
effect and the writer state unchanged. -/
theorem fileWriterStop_idempotent (w : FileWriterCtl) :
    (FileWriterStop w).1.done = true ∧
    FileWriterStop (FileWriterStop w).1 = ((FileWriterStop w).1, []) ∧
    (w.done = false →
      (FileWriterStop w).2 = [StopEffect.closeSigWriter, StopEffect.waitGroup] ∧
      (FileWriterStop w).1.sigWriterClosed = true) ∧
    (w.done = true → FileWriterStop w = (w, [])) := by
  by_cases hd : w.done <;> simp [FileWriterStop, hd]

theorem fileWriterStop_idempotent_witness :
    (FileWriterStop ⟨false, false⟩).2 =
      [StopEffect.closeSigWriter, StopEffect.waitGroup] ∧
    FileWriterStop (FileWriterStop ⟨false, false⟩).1 =
      ((FileWriterStop ⟨false, false⟩).1, []) ∧
    FileWriterStop ⟨true, true⟩ = (⟨true, true⟩, []) :=
  ⟨((fileWriterStop_idempotent ⟨false, false⟩).2.2.1 rfl).1,
   (fileWriterStop_idempotent ⟨false, false⟩).2.1,
   (fileWriterStop_idempotent ⟨true, true⟩).2.2.2 rfl⟩

/-- C1: for every reachable repository state, the number of entries in the
node index never exceeds the node limit: node-queue handling, save, restore
and the value-updating operations all preserve `|nodeIndex| ≤ NodeLimit`,
and an insert arriving while the index is at the limit is dropped. -/
theorem nodeIndex_le_nodeLimit (limit : Nat) (s : RepoState)
    (h : RepoReachable limit s) :
    NodeIndex.size s.index ≤ limit ∧
    ∀ (idx : NodeIndex) (n : Node), limit ≤ NodeIndex.size idx →
      handleNode limit idx n = idx := by
  refine ⟨?_, ?_⟩
  case refine_2 =>
    intro idx n hl
    unfold handleNode
    by_cases hc : NodeIndex.containsKey idx n.addr <;> simp [hc, hl]
  have step_bound : ∀ idx : NodeIndex, ∀ n : Node,
      NodeIndex.size idx ≤ limit →
      NodeIndex.size (handleNode limit idx n) ≤ limit := by
    intro idx n hle
    unfold handleNode
    by_cases hc : NodeIndex.containsKey idx n.addr
    · simp [hc, hle]
    · by_cases hl : limit ≤ NodeIndex.size idx
      · simp [hc, hl, hle]
      · simp only [hc, hl, if_false, if_neg, Bool.false_eq_true, ite_false]
        simp only [NodeIndex.size, List.length_cons] at hl ⊢
        omega
  have adjust_size : ∀ idx : NodeIndex, ∀ key : String, ∀ f : Node → Node,
      NodeIndex.size (NodeIndex.adjust idx key f) = NodeIndex.size idx := by
    intro idx key f
    simp [NodeIndex.adjust, NodeIndex.size]
  have key : NodeIndex.size s.index ≤ limit ∧
      ∀ m, s.file = some m → NodeIndex.size m ≤ limit := by
    induction h with
    | refl =>
      constructor
      · simp [repoInit, NodeIndex.size]
      · intro m hm
        simp [repoInit] at hm
    | tail hab hbc ih =>
      cases hbc with
      | node n =>
        exact ⟨step_bound _ _ ih.1, ih.2⟩
      | save =>
        refine ⟨ih.1, fun m hm => ?_⟩
        have hsome : _ = m := Option.some.inj hm
        exact hsome ▸ ih.1
      | restoreStep m hm =>
        exact ⟨ih.2 m hm, ih.2⟩
      | update addr src =>
        refine ⟨?_, ih.2⟩
        simp only [repositoryUpdateKnown, adjust_size]
        exact ih.1
      | attemptStep addr now =>
        refine ⟨?_, ih.2⟩
        simp only [repositoryAttempt, adjust_size]
        exact ih.1
      | connected addr now =>
        refine ⟨?_, ih.2⟩
        simp only [repositoryConnected, adjust_size]
        exact ih.1
      | good addr now =>
        refine ⟨?_, ih.2⟩
        simp only [repositoryGood, adjust_size]
        exact ih.1
  exact key.1

theorem nodeIndex_le_nodeLimit_witness :
    NodeIndex.size
      (RepoState.mk (handleNode 1 (handleNode 1 [] ⟨"a:1", "s", 0, 0, 0, 0⟩)
        ⟨"b:2", "s", 0, 0, 0, 0⟩) none).index ≤ 1 ∧
    handleNode 1 [("a:1", ⟨"a:1", "s", 0, 0, 0, 0⟩)] ⟨"b:2", "s", 0, 0, 0, 0⟩ =
      [("a:1", ⟨"a:1", "s", 0, 0, 0, 0⟩)] :=
  ⟨(nodeIndex_le_nodeLimit 1 _
    (Relation.ReflTransGen.tail
      (Relation.ReflTransGen.single (RepoStep.node repoInit ⟨"a:1", "s", 0, 0, 0, 0⟩))
      (RepoStep.node ⟨handleNode 1 [] ⟨"a:1", "s", 0, 0, 0, 0⟩, none⟩
        ⟨"b:2", "s", 0, 0, 0, 0⟩))).1,
   (nodeIndex_le_nodeLimit 1 repoInit Relation.ReflTransGen.refl).2
     [("a:1", ⟨"a:1", "s", 0, 0, 0, 0⟩)] ⟨"b:2", "s", 0, 0, 0, 0⟩ (by decide)⟩

/-- C2 counterexample: `repository.save` does not write a temporary file and
rename it over the live file — its trace holds no rename at all — and it is
not crash-atomic: stopping the trace right after `os.Create` leaves
`nodes.dat` truncated to empty, which is neither the old content nor the new
index, so a restore at that point observes a partially written file. -/
theorem save_not_crashAtomic_counterexample :
    ¬ writeTempThenRename
        (saveOps [("b:2", ⟨"b:2", "s", 0, 0, 0, 0⟩)])
        [("b:2", ⟨"b:2", "s", 0, 0, 0, 0⟩)] ∧
    ¬ crashAtomic
        (saveOps [("b:2", ⟨"b:2", "s", 0, 0, 0, 0⟩)])
        [(liveNodeFile, [("a:1", ⟨"a:1", "s", 0, 0, 0, 0⟩)])]
        (some [("a:1", ⟨"a:1", "s", 0, 0, 0, 0⟩)])
        [("b:2", ⟨"b:2", "s", 0, 0, 0, 0⟩)] := by
  constructor
  · rintro ⟨tmp, hne, hc, hw, hr⟩
    simp [saveOps] at hr
  · intro h
    have h1 := h 1
    revert h1
    decide

/-- C2 amended: `repository.save` writes the entire node index directly into
the live file `nodes.dat` (truncate, encode, close); every operation of its
trace targets the live file and none is a rename, and after the full trace
the live file holds the complete index.  Because the live file is truncated
in place, persistence is not crash-atomic. -/
theorem save_writes_live_directly (idx : NodeIndex) (fs : FsState) :
    (∀ op ∈ saveOps idx, op = FsOp.create liveNodeFile ∨
      op = FsOp.writeData liveNodeFile idx ∨ op = FsOp.close liveNodeFile) ∧
    ¬ writeTempThenRename (saveOps idx) idx ∧
    FsState.read (applyOps fs (saveOps idx)) liveNodeFile = some idx := by
  refine ⟨?_, ?_, ?_⟩
  · intro op hop
    simp only [saveOps, List.mem_cons, List.not_mem_nil, or_false] at hop
    tauto
  · rintro ⟨tmp, hne, hc, hw, hr⟩
    simp [saveOps] at hr
  · simp [saveOps, applyOps, FsOp.apply, FsState.write, FsState.read, List.lookup]

theorem save_writes_live_directly_witness :
    (FsOp.create liveNodeFile = FsOp.create liveNodeFile ∨
      FsOp.create liveNodeFile = FsOp.writeData liveNodeFile [] ∨
      FsOp.create liveNodeFile = FsOp.close liveNodeFile) ∧
    FsState.read (applyOps [] (saveOps [])) liveNodeFile = some [] :=
  ⟨(save_writes_live_directly [] []).1 (FsOp.create liveNodeFile) (by decide),
   (save_writes_live_directly [] []).2.2⟩

/-- C3 counterexample: the `verack` record's text form does not begin with
the command string — at a concrete record, the text (which the source builds
as timestamp first, then command) differs from the claimed
command-timestamp-remote-local order. -/
theorem verAck_text_not_command_first :
    VerAckRecord.toText
      ⟨"2015-06-01T12:00:00.000000001Z", "verack", "1.2.3.4:8333", "5.6.7.8:18333"⟩ ≠
      "verack" ++ " " ++ "2015-06-01T12:00:00.000000001Z" ++ " " ++
        "1.2.3.4:8333" ++ " " ++ "5.6.7.8:18333" ∧
    (VerAckRecord.toText
      ⟨"2015-06-01T12:00:00.000000001Z", "verack", "1.2.3.4:8333", "5.6.7.8:18333"⟩).data.take 7 ≠
      ("verack" ++ " ").data := by
  constructor
  · decide
  · decide

/-- C3 amended: the `addr` record's text form begins with the command
string, the RFC3339Nano timestamp, the remote address and the local address,
in that order, separated by single spaces; the `verack` record's text form
instead puts the timestamp first, then the command, the remote address and
the local address, separated by single spaces. -/
theorem record_text_field_order (ar : AddressRecord) (vr : VerAckRecord) :
    (∃ rest, AddressRecord.toText ar =
      ar.cmd ++ " " ++ ar.stampStr ++ " " ++ ar.raStr ++ " " ++ ar.laStr ++ " " ++ rest) ∧
    VerAckRecord.toText vr =
      vr.stampStr ++ " " ++ vr.cmd ++ " " ++ vr.raStr ++ " " ++ vr.laStr := by
  constructor
  · exact ⟨toString ar.addrs.length ++
      ar.addrs.foldl (fun acc a => acc ++ "\n" ++ " " ++ a) "",
      String.append_assoc _ _ _⟩
  · rfl

/-- C4 counterexample: when the peer index is at the peer limit, the new
peer is not added, but it is not stopped either — `processNewPeer` performs
no action at all on the discarded peer. -/
theorem processNewPeer_discard_without_stopping :
    processNewPeer 1 [("1.2.3.4:8333", ⟨"1.2.3.4:8333"⟩)] ⟨"5.6.7.8:8333"⟩ =
      ([("1.2.3.4:8333", ⟨"1.2.3.4:8333"⟩)], []) ∧
    PeerAction.stopPeer "5.6.7.8:8333" ∉
      (processNewPeer 1 [("1.2.3.4:8333", ⟨"1.2.3.4:8333"⟩)] ⟨"5.6.7.8:8333"⟩).2 := by
  constructor
  · decide
  · decide

/-- C4 amended: when the Manager processes a peer from the `peerNew` channel
and the peer index already contains that peer's address or the index size is
at the peer limit, the peer is not added to the index and no call (in
particular no `Stop`) is made on it; otherwise the peer is started and added
to the index. -/
theorem processNewPeer_spec (limit : Nat) (peerIndex : List (String × ManagedPeer))
    (p : ManagedPeer) :
    ((List.lookup p.key peerIndex).isSome = true ∨ limit ≤ peerIndex.length →
      processNewPeer limit peerIndex p = (peerIndex, [])) ∧
    ((List.lookup p.key peerIndex).isSome = false → peerIndex.length < limit →
      processNewPeer limit peerIndex p =
        ((p.key, p) :: peerIndex, [PeerAction.startPeer p.key])) := by
  constructor
  · intro h
    unfold processNewPeer
    rcases h with h | h
    · simp [h]
    · by_cases hc : (List.lookup p.key peerIndex).isSome <;> simp [hc, h]
  · intro hc hl
    unfold processNewPeer
    simp [hc, Nat.not_le.mpr hl]

theorem processNewPeer_spec_witness :
    processNewPeer 1 [(("1.2.3.4:8333" : String),
      (⟨"1.2.3.4:8333"⟩ : ManagedPeer))] ⟨"5.6.7.8:8333"⟩ =
      ([("1.2.3.4:8333", ⟨"1.2.3.4:8333"⟩)], []) ∧
    processNewPeer 2 [(("1.2.3.4:8333" : String),
      (⟨"1.2.3.4:8333"⟩ : ManagedPeer))] ⟨"5.6.7.8:8333"⟩ =
      ([("5.6.7.8:8333", ⟨"5.6.7.8:8333"⟩), ("1.2.3.4:8333", ⟨"1.2.3.4:8333"⟩)],
        [PeerAction.startPeer "5.6.7.8:8333"]) :=
  ⟨(processNewPeer_spec 1 [("1.2.3.4:8333", ⟨"1.2.3.4:8333"⟩)] ⟨"5.6.7.8:8333"⟩).1
      (Or.inr (by decide)),
   (processNewPeer_spec 2 [("1.2.3.4:8333", ⟨"1.2.3.4:8333"⟩)] ⟨"5.6.7.8:8333"⟩).2
      (by decide) (by decide)⟩

lemma leBytes_length (w v : Nat) : (leBytes w v).length = w := by
  simp [leBytes]

lemma ipTo16_length (ip : List Nat) (h : ip.length = 4 ∨ ip.length = 16) :
    (ipTo16 ip).length = 16 := by
  rcases h with h | h <;> simp [ipTo16, h]

lemma entryRecord_bytes_length (e : EntryRecord)
    (h : e.ip.length = 4 ∨ e.ip.length = 16) :
    (EntryRecord.bytes e).length = 30 := by
  simp [EntryRecord.bytes, leBytes_length, ipTo16_length e.ip h]

/-- C6: for every `addr` message with `N` address entries (whose IPs are
well-formed IPv4 or IPv6 addresses), the binary form of its record is
exactly `47 + 30·N` bytes long: a 47-byte header (8-byte timestamp, 16-byte
remote IP, 2-byte remote port, 16-byte local IP, 2-byte local port, 1-byte
command code, 2-byte entry count) followed by `N` 30-byte entries. -/
theorem addressRecordBin_length (ar : AddressRecordBin)
    (hra : ar.ra.ip.length = 4 ∨ ar.ra.ip.length = 16)
    (hla : ar.la.ip.length = 4 ∨ ar.la.ip.length = 16)
    (he : ∀ e ∈ ar.addrs, e.ip.length = 4 ∨ e.ip.length = 16) :
    (AddressRecordBin.bytes ar).length = 47 + 30 * ar.addrs.length := by
  have hentries : ∀ l : List EntryRecord,
      (∀ e ∈ l, e.ip.length = 4 ∨ e.ip.length = 16) →
      ((l.map EntryRecord.bytes).flatten).length = 30 * l.length := by
    intro l hl
    induction l with
    | nil => simp
    | cons e t ih =>
      have he' := hl e (List.mem_cons_self e t)
      have ht := ih fun x hx => hl x (List.mem_cons_of_mem e hx)
      simp only [List.map_cons, List.flatten_cons, List.length_append,
        List.length_cons, ht, entryRecord_bytes_length e he']
      ring
  simp only [AddressRecordBin.bytes, List.length_append, leBytes_length,
    ipTo16_length ar.ra.ip hra, ipTo16_length ar.la.ip hla,
    hentries ar.addrs he]

theorem addressRecordBin_length_witness :
    (AddressRecordBin.bytes
      ⟨1433160000000000001,
        ⟨[1, 2, 3, 4], 8333⟩,
        ⟨[0, 0, 0, 0, 0, 0, 0, 0, 0, 0, 0, 0, 0, 0, 0, 1], 18333⟩,
        "addr",
        [⟨1433160000, 13, [5, 6, 7, 8], 8333⟩,
         ⟨1433160001, 13, [9, 10, 11, 12], 8333⟩]⟩).length = 47 + 30 * 2 :=
  addressRecordBin_length
    ⟨1433160000000000001,
      ⟨[1, 2, 3, 4], 8333⟩,
      ⟨[0, 0, 0, 0, 0, 0, 0, 0, 0, 0, 0, 0, 0, 0, 0, 1], 18333⟩,
      "addr",
      [⟨1433160000, 13, [5, 6, 7, 8], 8333⟩,
       ⟨1433160001, 13, [9, 10, 11, 12], 8333⟩]⟩
    (by decide) (by decide) (by decide)

end PBTC
